import Mathlib

/-!
Shallow embedding of the Monte-Carlo pi-approximation engine from
`src/Application/src/main.cpp` and
`src/Application/include/workingImplementation.h`.

Modelling conventions:
- The C++ `std::default_random_engine` / `std::uniform_real_distribution<float>`
  pipeline is implementation-defined; it is embedded as an abstract sample
  stream `gen : ℕ → ℕ → ℚ × ℚ` mapping a seed and a draw index to a 2-D point,
  keeping only the guarantee that the stream is a deterministic function of
  the seed.  Coordinates are embedded as rationals.
- `unsigned int` values are naturals taken modulo `2 ^ 32` at every point the
  C++ code converts to `unsigned int`.
- The final float expression `4.0f * (float)count / (float)iterations` is
  embedded as exact rational division; the `0/0` float NaN arising when
  `iterations = 0` is embedded as `none`.
-/

namespace PiApprox

/-- Modulus of the C++ `unsigned int` type (the seed parameters). -/
def U32 : ℕ := 2 ^ 32

/-- An abstract sample source: `gen seed i` is the i-th 2-D point produced by
`std::uniform_real_distribution<float> d(-1.0f, 1.0f)` driven by
`std::default_random_engine e(seed)` (two floats are drawn per loop
iteration; the pair drawn in iteration `i` is `gen seed i`). -/
abbrev SampleStream : Type := ℕ → ℕ → ℚ × ℚ

/-- The source's `Magnitude(x, y) = std::sqrtf(x * x + y * y)`
(main.cpp lines 11-14), embedded over the reals. -/
noncomputable def Magnitude (x y : ℚ) : ℝ := Real.sqrt ((x * x + y * y : ℚ) : ℝ)

/-- The branch condition `Magnitude(x, y) <= 1.0f` of every sampling loop, in
decidable squared form; `magnitude_le_one_iff` below proves it coincides with
the source's square-root form. -/
def insideDisc (x y : ℚ) : Bool := decide (x * x + y * y ≤ 1)

/-- The square-root test of the source and the squared test used in the
executable embedding agree. -/
theorem magnitude_le_one_iff (x y : ℚ) :
    Magnitude x y ≤ 1 ↔ insideDisc x y = true := by
  unfold Magnitude insideDisc
  rw [decide_eq_true_iff, Real.sqrt_le_one]
  constructor
  · intro h
    exact_mod_cast h
  · intro h
    exact_mod_cast h

/-- The sampling loop shared verbatim by `SingleThread` and by every worker
subroutine: `for (i = 0; i < n; i++) { x = d(e); y = d(e);
if (Magnitude(x, y) <= 1.0f) count++; }`, over the stream `pts`. -/
def countInside (pts : ℕ → ℚ × ℚ) : ℕ → ℕ
  | 0 => 0
  | n + 1 => countInside pts n + (if insideDisc (pts n).1 (pts n).2 then 1 else 0)

/-- A sampling loop never counts more points than it draws. -/
theorem countInside_le (pts : ℕ → ℚ × ℚ) (n : ℕ) : countInside pts n ≤ n := by
  induction n with
  | zero => exact Nat.le_refl 0
  | succ n ih =>
      unfold countInside
      by_cases h : insideDisc (pts n).1 (pts n).2
      · simp [h]
        omega
      · simp [h]
        omega

/-- The loop count equals the number of indices below `n` whose sample passes
the inside-disc test. -/
theorem countInside_eq_countP (pts : ℕ → ℚ × ℚ) (n : ℕ) :
    countInside pts n =
      (List.range n).countP (fun i => insideDisc (pts i).1 (pts i).2) := by
  induction n with
  | zero => rfl
  | succ n ih =>
      rw [List.range_succ, List.countP_append]
      unfold countInside
      rw [ih]
      by_cases h : insideDisc (pts n).1 (pts n).2
      · simp [List.countP_cons, h]
      · simp [List.countP_cons, h]

/-- The final conversion `4.0f * (float)count / (float)iterations` shared by
all variants (main.cpp lines 36, 86, 133, 185).  When `iterations = 0` the
float expression is `0.0f / 0.0f`, a NaN, embedded as `none`. -/
def toEstimate (count iterations : ℕ) : Option ℚ :=
  if iterations = 0 then none else some (4 * (count : ℚ) / (iterations : ℚ))

/-- Seed handed to worker `worker` by `AsyncNoRef` (main.cpp line 119):
`seed + worker` evaluated in `size_t` (mod `2 ^ 64`) and then truncated by the
lambda's `unsigned int seed` parameter; since `2 ^ 32` divides `2 ^ 64` this
is `(seed + worker) % 2 ^ 32`. -/
def AsyncNoRefSeed (seed worker : ℕ) : ℕ := (seed + worker) % U32

/-- Seed handed to worker `worker` by `Threads` (main.cpp line 169):
`seed + (unsigned int)worker`, entirely in `unsigned int` arithmetic. -/
def ThreadsSeed (seed worker : ℕ) : ℕ := (seed + worker % U32) % U32

/-- Observable outcome of one sequential run: the loop trip count, the
in-disc tally and the returned estimate. -/
structure SeqResult where
  iterationsExecuted : ℕ
  inCount : ℕ
  estimate : Option ℚ

/-- Observable outcome of one pooled run: how many units of work the kick-off
loop dispatched, the total loop iterations executed across workers, the list
of per-worker results retrieved from the futures (index = worker ordinal),
their sum, and the returned estimate. -/
structure PoolResult where
  unitsDispatched : ℕ
  iterationsExecuted : ℕ
  partials : List ℕ
  inCount : ℕ
  estimate : Option ℚ

/-- Events issued by the orchestration code of a `Threads`-style engine:
`std::thread` construction, `join()`, `detach()`, and `future.get()`, each
tagged with the worker ordinal. -/
inductive ThreadEvent : Type where
  | spawn : ℕ → ThreadEvent
  | join : ℕ → ThreadEvent
  | detach : ℕ → ThreadEvent
  | getResult : ℕ → ThreadEvent
deriving DecidableEq

namespace Main

/-- `SingleThread(iterations, seed)` of main.cpp lines 17-37: one engine
seeded with `seed`, `iterations` loop iterations, estimate
`4 * count / iterations`. -/
def SingleThread (gen : SampleStream) (iterations seed : ℕ) : SeqResult :=
  { iterationsExecuted := iterations
    inCount := countInside (gen seed) iterations
    estimate := toEstimate (countInside (gen seed) iterations) iterations }

/-- The worker lambda `approximatePi` of `AsyncNoRef` (main.cpp lines
95-112): constructs its own engine from its `seed` parameter and runs the
sampling loop for `iterations / nrOfWorkers` draws. -/
def approximatePi (gen : SampleStream) (iterations nrOfWorkers seed : ℕ) : ℕ :=
  countInside (gen seed) (iterations / nrOfWorkers)

/-- The per-worker results of `AsyncNoRef` retrieved through
`futures[worker].get()` (main.cpp lines 114-131), worker `w` having been
launched with seed `seed + w`. -/
def AsyncNoRefPartials (gen : SampleStream) (iterations seed nrOfWorkers : ℕ) :
    List ℕ :=
  (List.range nrOfWorkers).map fun worker =>
    approximatePi gen iterations nrOfWorkers (AsyncNoRefSeed seed worker)

/-- `AsyncNoRef(iterations, seed, nrOfWorkers)` of main.cpp lines 90-134. -/
def AsyncNoRef (gen : SampleStream) (iterations seed nrOfWorkers : ℕ) :
    PoolResult :=
  { unitsDispatched := nrOfWorkers
    iterationsExecuted := nrOfWorkers * (iterations / nrOfWorkers)
    partials := AsyncNoRefPartials gen iterations seed nrOfWorkers
    inCount := (AsyncNoRefPartials gen iterations seed nrOfWorkers).sum
    estimate :=
      toEstimate (AsyncNoRefPartials gen iterations seed nrOfWorkers).sum
        iterations }

/-- The per-worker results of `Threads` published through each worker's
promise and retrieved through `futures[worker].get()` (main.cpp lines
142-183), worker `w` having been launched with seed
`seed + (unsigned int)w`. -/
def ThreadsPartials (gen : SampleStream) (iterations seed nrOfWorkers : ℕ) :
    List ℕ :=
  (List.range nrOfWorkers).map fun worker =>
    countInside (gen (ThreadsSeed seed worker)) (iterations / nrOfWorkers)

/-- `Threads(iterations, seed, nrOfWorkers)` of main.cpp lines 137-186. -/
def Threads (gen : SampleStream) (iterations seed nrOfWorkers : ℕ) :
    PoolResult :=
  { unitsDispatched := nrOfWorkers
    iterationsExecuted := nrOfWorkers * (iterations / nrOfWorkers)
    partials := ThreadsPartials gen iterations seed nrOfWorkers
    inCount := (ThreadsPartials gen iterations seed nrOfWorkers).sum
    estimate :=
      toEstimate (ThreadsPartials gen iterations seed nrOfWorkers).sum
        iterations }

/-- Order of thread-management calls made by main.cpp's `Threads` (lines
161-183): the kick-off loop constructs one `std::thread` per worker (line
169); the retrieval loop then, per worker, detaches the thread (line 180 —
the `join()` on line 179 is commented out) and calls `futures[worker].get()`
(line 181). -/
def ThreadsTrace (nrOfWorkers : ℕ) : List ThreadEvent :=
  ((List.range nrOfWorkers).map ThreadEvent.spawn) ++
    ((List.range nrOfWorkers).map fun worker =>
      [ThreadEvent.detach worker, ThreadEvent.getResult worker]).flatten

/-- `AsyncNoRef` re-run under an explicit completion schedule: the workers'
partial results are accumulated in the order `sched` in which the scheduler
completes them, instead of future-index order.  Each worker's value is
unchanged by scheduling — it is a pure function of its own chunk size and
seed. -/
def AsyncNoRefSched (gen : SampleStream) (iterations seed nrOfWorkers : ℕ)
    (sched : List ℕ) : Option ℚ :=
  toEstimate
    ((sched.map fun worker =>
      approximatePi gen iterations nrOfWorkers (AsyncNoRefSeed seed worker)).sum)
    iterations

/-- `Threads` re-run under an explicit completion schedule, as in
`AsyncNoRefSched`. -/
def ThreadsSched (gen : SampleStream) (iterations seed nrOfWorkers : ℕ)
    (sched : List ℕ) : Option ℚ :=
  toEstimate
    ((sched.map fun worker =>
      countInside (gen (ThreadsSeed seed worker)) (iterations / nrOfWorkers)).sum)
    iterations

end Main

namespace Working

/-- The per-worker results of `Async` in workingImplementation.h lines 43-87:
identical to main.cpp's `AsyncNoRef` except that worker `w`'s engine is
seeded directly with its `workerId` (line 51, launched with `worker` at line
72) — a base seed fixed at `0`. -/
def AsyncPartials (gen : SampleStream) (iterations nrOfWorkers : ℕ) : List ℕ :=
  (List.range nrOfWorkers).map fun worker =>
    countInside (gen worker) (iterations / nrOfWorkers)

/-- `Async(iterations, nrOfWorkers)` of workingImplementation.h lines 43-87. -/
def Async (gen : SampleStream) (iterations nrOfWorkers : ℕ) : PoolResult :=
  { unitsDispatched := nrOfWorkers
    iterationsExecuted := nrOfWorkers * (iterations / nrOfWorkers)
    partials := AsyncPartials gen iterations nrOfWorkers
    inCount := (AsyncPartials gen iterations nrOfWorkers).sum
    estimate := toEstimate (AsyncPartials gen iterations nrOfWorkers).sum
      iterations }

/-- Order of thread-management calls made by workingImplementation.h's
`Threads` (lines 114-136): one `std::thread` per worker (line 122), then per
worker a `join()` (line 132 — the `detach()` on line 133 is commented out)
followed by `futures[worker].get()` (line 134). -/
def ThreadsTrace (nrOfWorkers : ℕ) : List ThreadEvent :=
  ((List.range nrOfWorkers).map ThreadEvent.spawn) ++
    ((List.range nrOfWorkers).map fun worker =>
      [ThreadEvent.join worker, ThreadEvent.getResult worker]).flatten

end Working

/-- A work chunk of the partition: its iteration budget, the seed its worker
receives, and the worker ordinal. -/
structure WorkChunk where
  size : ℕ
  seed : ℕ
  ordinal : ℕ
deriving DecidableEq

/-- The work partition inlined identically in `AsyncNoRef` and `Threads`:
worker `w` runs `iterations / nrOfWorkers` loop iterations (main.cpp lines
102 and 149) with seed `seed + w` (lines 119 and 169). -/
def split (totalIterations workerCount baseSeed : ℕ) : List WorkChunk :=
  (List.range workerCount).map fun w =>
    { size := totalIterations / workerCount
      seed := AsyncNoRefSeed baseSeed w
      ordinal := w }

/-- Concrete sample stream for witnesses: every draw is the origin, which
lies inside the unit disc. -/
def genOrigin : SampleStream := fun _ _ => (0, 0)

/-- Concrete sample stream for witnesses: draws alternate between a point
inside the disc and a point outside it, depending on seed and index. -/
def genAlt : SampleStream := fun seed i =>
  if (seed + i) % 2 = 0 then (0, 0) else (1, 1)

/-- A mapped range list turns into a replicate when the function is
constant on it. -/
theorem map_range_const {c : ℕ} {f : ℕ → ℕ} (h : ∀ w, f w = c) (n : ℕ) :
    (List.range n).map f = List.replicate n c := by
  have hf : f = fun _ => c := funext h
  rw [hf, List.map_const', List.length_range]

/-- The origin passes the inside-disc test. -/
theorem insideDisc_origin : insideDisc 0 0 = true := by
  simp [insideDisc]

/-- Over the all-origin stream every draw is counted. -/
theorem countInside_genOrigin (s n : ℕ) : countInside (genOrigin s) n = n := by
  induction n with
  | zero => rfl
  | succ n ih => simp [countInside, genOrigin, insideDisc_origin, ih]

/-- Over the all-origin stream, every AsyncNoRef worker reports exactly its
chunk size. -/
theorem asyncNoRefPartials_genOrigin (iterations seed nrOfWorkers : ℕ) :
    Main.AsyncNoRefPartials genOrigin iterations seed nrOfWorkers =
      List.replicate nrOfWorkers (iterations / nrOfWorkers) := by
  unfold Main.AsyncNoRefPartials Main.approximatePi
  exact map_range_const (fun w => countInside_genOrigin _ _) nrOfWorkers

/-- Over the all-origin stream, every Threads worker reports exactly its
chunk size. -/
theorem threadsPartials_genOrigin (iterations seed nrOfWorkers : ℕ) :
    Main.ThreadsPartials genOrigin iterations seed nrOfWorkers =
      List.replicate nrOfWorkers (iterations / nrOfWorkers) := by
  unfold Main.ThreadsPartials
  exact map_range_const (fun w => countInside_genOrigin _ _) nrOfWorkers

/-- A member of a list of lists occurs contiguously inside the flattened
list. -/
theorem exists_decomp_of_mem_flatten {α : Type} {chunk : List α} :
    ∀ {L : List (List α)}, chunk ∈ L →
      ∃ pre post, L.flatten = pre ++ chunk ++ post := by
  intro L h
  induction L with
  | nil => cases h
  | cons hd tl ih =>
      rcases List.mem_cons.mp h with rfl | h2
      · exact ⟨[], tl.flatten, by simp⟩
      · rcases ih h2 with ⟨pre, post, hpp⟩
        exact ⟨hd ++ pre, post, by simp [hpp]⟩

/-- Counting occurrences in a flattened range-indexed block list sums the
per-block counts. -/
theorem count_flatten_range (f : ℕ → List ThreadEvent) (x : ThreadEvent) :
    ∀ n, (((List.range n).map f).flatten).count x =
      ((List.range n).map fun v => (f v).count x).sum := by
  intro n
  induction n with
  | zero => rfl
  | succ n ih =>
      rw [List.range_succ]
      simp [List.count_append, ih]

/-- Indicator sum over a range collapses to a membership test. -/
theorem sum_indicator_range (w : ℕ) :
    ∀ n, ((List.range n).map fun v => if v = w then 1 else 0).sum =
      if w < n then 1 else 0 := by
  intro n
  induction n with
  | zero => rfl
  | succ n ih =>
      rw [List.range_succ]
      simp only [List.map_append, List.sum_append, ih, List.map_cons,
        List.map_nil, List.sum_cons, List.sum_nil]
      split_ifs <;> omega

/-- The arguments of `ThreadEvent.spawn` are recoverable: it is injective. -/
theorem spawn_injective : Function.Injective ThreadEvent.spawn := by
  intro a b h
  simpa using h

/-- C1 counterexample: with 10 total iterations, 4 workers and an all-inside
sample stream, each worker counts floor(10/4) = 2 in-disc samples, the summed
in-count is 8, and the code returns 4 * 8 / 10 = 16/5 — not
4 * 8 / (4 * floor(10/4)) = 4 as the claim requires. -/
theorem claim1_counterexample :
    (Main.AsyncNoRef genOrigin 10 0 4).inCount = 8 ∧
    (Main.AsyncNoRef genOrigin 10 0 4).estimate ≠
      some (4 * ((Main.AsyncNoRef genOrigin 10 0 4).inCount : ℚ) /
        ((4 * (10 / 4 : ℕ) : ℕ) : ℚ)) := by
  have hin : (Main.AsyncNoRef genOrigin 10 0 4).inCount = 8 := by
    show (Main.AsyncNoRefPartials genOrigin 10 0 4).sum = 8
    rw [asyncNoRefPartials_genOrigin]
    decide
  have hest : (Main.AsyncNoRef genOrigin 10 0 4).estimate = some (16 / 5) := by
    show toEstimate (Main.AsyncNoRefPartials genOrigin 10 0 4).sum 10 =
      some (16 / 5)
    rw [asyncNoRefPartials_genOrigin]
    have hs : (List.replicate 4 (10 / 4 : ℕ)).sum = 8 := by decide
    rw [hs]
    norm_num [toEstimate]
  refine ⟨hin, ?_⟩
  rw [hest, hin]
  simp only [ne_eq, Option.some.injEq]
  norm_num

/-- C1 amended: the combine step of AsyncNoRef, Threads and the header's
Async divides the summed in-disc counts by the originally requested
totalIterations (and multiplies by 4), not by the sum of chunk sizes. -/
theorem claim1_amended (gen : SampleStream) (iterations seed nrOfWorkers : ℕ)
    (hT : 0 < iterations) :
    (Main.AsyncNoRef gen iterations seed nrOfWorkers).estimate =
      some (4 * ((((List.range nrOfWorkers).map fun w =>
          countInside (gen (AsyncNoRefSeed seed w))
            (iterations / nrOfWorkers)).sum : ℕ) : ℚ) / (iterations : ℚ)) ∧
    (Main.Threads gen iterations seed nrOfWorkers).estimate =
      some (4 * ((((List.range nrOfWorkers).map fun w =>
          countInside (gen (ThreadsSeed seed w))
            (iterations / nrOfWorkers)).sum : ℕ) : ℚ) / (iterations : ℚ)) ∧
    (Working.Async gen iterations nrOfWorkers).estimate =
      some (4 * ((((List.range nrOfWorkers).map fun w =>
          countInside (gen w)
            (iterations / nrOfWorkers)).sum : ℕ) : ℚ) / (iterations : ℚ)) := by
  refine ⟨?_, ?_, ?_⟩ <;>
    simp [Main.AsyncNoRef, Main.Threads, Working.Async, Main.AsyncNoRefPartials,
      Main.ThreadsPartials, Working.AsyncPartials, Main.approximatePi,
      toEstimate, hT.ne']

/-- C1 amended, witness at a concrete input. -/
theorem claim1_amended_witness :
    (Main.AsyncNoRef genOrigin 10 0 4).estimate =
      some (4 * ((((List.range 4).map fun w =>
          countInside (genOrigin (AsyncNoRefSeed 0 w))
            (10 / 4)).sum : ℕ) : ℚ) / ((10 : ℕ) : ℚ)) ∧
    (Main.Threads genOrigin 10 0 4).estimate =
      some (4 * ((((List.range 4).map fun w =>
          countInside (genOrigin (ThreadsSeed 0 w))
            (10 / 4)).sum : ℕ) : ℚ) / ((10 : ℕ) : ℚ)) ∧
    (Working.Async genOrigin 10 4).estimate =
      some (4 * ((((List.range 4).map fun w =>
          countInside (genOrigin w)
            (10 / 4)).sum : ℕ) : ℚ) / ((10 : ℕ) : ℚ)) :=
  claim1_amended genOrigin 10 0 4 (by decide)

/-- C2: worker k of AsyncNoRef and Threads is launched with seed
baseSeed + k (exactly, absent unsigned-int wraparound), its engine is
constructed from that seed, and two distinct workers receive distinct
seeds. -/
theorem claim2_seed_assignment (gen : SampleStream)
    (baseSeed workerCount iterations k j : ℕ)
    (hk : k < workerCount) (hj : j < workerCount) (hjk : j ≠ k)
    (hof : baseSeed + workerCount ≤ U32) :
    AsyncNoRefSeed baseSeed k = baseSeed + k ∧
    ThreadsSeed baseSeed k = baseSeed + k ∧
    (Main.AsyncNoRefPartials gen iterations baseSeed workerCount).get? k =
      some (countInside (gen (baseSeed + k)) (iterations / workerCount)) ∧
    (Main.ThreadsPartials gen iterations baseSeed workerCount).get? k =
      some (countInside (gen (baseSeed + k)) (iterations / workerCount)) ∧
    AsyncNoRefSeed baseSeed j ≠ AsyncNoRefSeed baseSeed k ∧
    ThreadsSeed baseSeed j ≠ ThreadsSeed baseSeed k := by
  have hkU : baseSeed + k < U32 := by omega
  have hjU : baseSeed + j < U32 := by omega
  have hkM : k % U32 = k := Nat.mod_eq_of_lt (by omega)
  have hjM : j % U32 = j := Nat.mod_eq_of_lt (by omega)
  have e1 : AsyncNoRefSeed baseSeed k = baseSeed + k := Nat.mod_eq_of_lt hkU
  have e2 : ThreadsSeed baseSeed k = baseSeed + k := by
    unfold ThreadsSeed
    rw [hkM]
    exact Nat.mod_eq_of_lt hkU
  have e3 : AsyncNoRefSeed baseSeed j = baseSeed + j := Nat.mod_eq_of_lt hjU
  have e4 : ThreadsSeed baseSeed j = baseSeed + j := by
    unfold ThreadsSeed
    rw [hjM]
    exact Nat.mod_eq_of_lt hjU
  refine ⟨e1, e2, ?_, ?_, ?_, ?_⟩
  · unfold Main.AsyncNoRefPartials
    rw [List.get?_map, List.get?_range hk]
    simp [Main.approximatePi, e1]
  · unfold Main.ThreadsPartials
    rw [List.get?_map, List.get?_range hk]
    simp [e2]
  · rw [e1, e3]
    omega
  · rw [e2, e4]
    omega

/-- C2 witness at a concrete input. -/
theorem claim2_witness :
    AsyncNoRefSeed 7 1 = 7 + 1 ∧
    ThreadsSeed 7 1 = 7 + 1 ∧
    (Main.AsyncNoRefPartials genAlt 20 7 3).get? 1 =
      some (countInside (genAlt (7 + 1)) (20 / 3)) ∧
    (Main.ThreadsPartials genAlt 20 7 3).get? 1 =
      some (countInside (genAlt (7 + 1)) (20 / 3)) ∧
    AsyncNoRefSeed 7 2 ≠ AsyncNoRefSeed 7 1 ∧
    ThreadsSeed 7 2 ≠ ThreadsSeed 7 1 :=
  claim2_seed_assignment genAlt 7 3 20 1 2 (by decide) (by decide) (by decide)
    (by decide)

/-- C3: the code performs no argument validation.  With totalIterations = 0
and 4 workers, AsyncNoRef and Threads still dispatch 4 units of work and
return the NaN of 0.0f/0.0f (none) instead of failing with InvalidArgument;
with workerCount = 0 they dispatch nothing and return 0.0f, again without
any error. -/
theorem claim3_no_validation :
    (Main.AsyncNoRef genOrigin 0 0 4).unitsDispatched = 4 ∧
    (Main.AsyncNoRef genOrigin 0 0 4).estimate = none ∧
    (Main.Threads genOrigin 0 0 4).unitsDispatched = 4 ∧
    (Main.Threads genOrigin 0 0 4).estimate = none ∧
    (Main.AsyncNoRef genOrigin 10 0 0).estimate = some 0 ∧
    (Main.Threads genOrigin 10 0 0).estimate = some 0 := by
  refine ⟨rfl, rfl, rfl, rfl, ?_, ?_⟩
  · show toEstimate (Main.AsyncNoRefPartials genOrigin 10 0 0).sum 10 = some 0
    norm_num [Main.AsyncNoRefPartials, toEstimate]
  · show toEstimate (Main.ThreadsPartials genOrigin 10 0 0).sum 10 = some 0
    norm_num [Main.ThreadsPartials, toEstimate]

/-- C4: with a single worker, AsyncNoRef and Threads run one chunk of
iterations / 1 = iterations draws seeded with seed + 0 = seed, so their total
in-disc count equals the count of SingleThread run with the same seed over
the same totalIterations. -/
theorem claim4_single_worker (gen : SampleStream) (iterations seed : ℕ)
    (hT : 0 < iterations) (hs : seed < U32) :
    (Main.AsyncNoRef gen iterations seed 1).inCount =
      (Main.SingleThread gen iterations seed).inCount ∧
    (Main.Threads gen iterations seed 1).inCount =
      (Main.SingleThread gen iterations seed).inCount := by
  have h0 : AsyncNoRefSeed seed 0 = seed := by
    unfold AsyncNoRefSeed
    simp [Nat.mod_eq_of_lt hs]
  have h1 : ThreadsSeed seed 0 = seed := by
    unfold ThreadsSeed
    simp [Nat.mod_eq_of_lt hs, Nat.mod_eq_of_lt (by omega : (0 : ℕ) < U32)]
  constructor
  · simp [Main.AsyncNoRef, Main.SingleThread, Main.AsyncNoRefPartials,
      Main.approximatePi, List.range_succ, h0, Nat.div_one]
  · simp [Main.Threads, Main.SingleThread, Main.ThreadsPartials,
      List.range_succ, h1, Nat.div_one]

/-- C4 witness at a concrete input. -/
theorem claim4_witness :
    (Main.AsyncNoRef genAlt 5 3 1).inCount =
      (Main.SingleThread genAlt 5 3).inCount ∧
    (Main.Threads genAlt 5 3 1).inCount =
      (Main.SingleThread genAlt 5 3).inCount :=
  claim4_single_worker genAlt 5 3 (by decide) (by decide)

/-- C5: every chunk of the partition has size floor(T/W), the chunk sizes
sum to (T/W)*W (not T), and executing the chunks is exactly what AsyncNoRef
does with its futures. -/
theorem claim5_partition (gen : SampleStream)
    (totalIterations workerCount baseSeed : ℕ) (c : WorkChunk)
    (hT : 0 < totalIterations) (hW : 0 < workerCount)
    (hc : c ∈ split totalIterations workerCount baseSeed) :
    c.size = totalIterations / workerCount ∧
    ((split totalIterations workerCount baseSeed).map WorkChunk.size).sum =
      (totalIterations / workerCount) * workerCount ∧
    ((split totalIterations workerCount baseSeed).map fun ch =>
        countInside (gen ch.seed) ch.size) =
      Main.AsyncNoRefPartials gen totalIterations baseSeed workerCount := by
  refine ⟨?_, ?_, ?_⟩
  · rcases List.mem_map.mp hc with ⟨w, _, rfl⟩
    rfl
  · rw [split, List.map_map]
    have h : (WorkChunk.size ∘ fun w =>
        ({ size := totalIterations / workerCount,
           seed := AsyncNoRefSeed baseSeed w, ordinal := w } : WorkChunk)) =
        fun _ => totalIterations / workerCount := rfl
    rw [h, List.map_const', List.sum_replicate, List.length_range,
      smul_eq_mul, mul_comm]
  · rw [split, List.map_map]
    rfl

/-- C5 witness at a concrete input. -/
theorem claim5_witness :
    ({ size := 2, seed := 1, ordinal := 1 } : WorkChunk).size = 10 / 4 ∧
    ((split 10 4 0).map WorkChunk.size).sum = (10 / 4) * 4 ∧
    ((split 10 4 0).map fun ch => countInside (genAlt ch.seed) ch.size) =
      Main.AsyncNoRefPartials genAlt 10 0 4 :=
  claim5_partition genAlt 10 4 0 { size := 2, seed := 1, ordinal := 1 }
    (by decide) (by decide) (by decide)

/-- C6: the unit of work counts, over n draws, exactly the samples whose
squared coordinates sum to at most 1; and the source's square-root test
Magnitude(x, y) <= 1 agrees with x^2 + y^2 <= 1 on every sample. -/
theorem claim6_partial_estimator (pts : ℕ → ℚ × ℚ) (n : ℕ) :
    countInside pts n =
      ((List.range n).countP fun i =>
        decide ((pts i).1 ^ 2 + (pts i).2 ^ 2 ≤ 1)) ∧
    ∀ x y : ℚ, Magnitude x y ≤ 1 ↔ x ^ 2 + y ^ 2 ≤ 1 := by
  constructor
  · rw [countInside_eq_countP]
    congr 1
    funext i
    simp [insideDisc, pow_two]
  · intro x y
    rw [magnitude_le_one_iff]
    simp [insideDisc, pow_two]

/-- C7: one partial result per chunk (the retrieved list has one entry per
worker), each partial in-count is at most its chunk's size, and the
aggregate consumes exactly the retrieved list, summing it once. -/
theorem claim7_partial_result_invariant (gen : SampleStream)
    (iterations seed nrOfWorkers p : ℕ)
    (hp : p ∈ (Main.AsyncNoRef gen iterations seed nrOfWorkers).partials) :
    (Main.AsyncNoRef gen iterations seed nrOfWorkers).partials.length =
      nrOfWorkers ∧
    p ≤ iterations / nrOfWorkers ∧
    (Main.AsyncNoRef gen iterations seed nrOfWorkers).inCount =
      (Main.AsyncNoRef gen iterations seed nrOfWorkers).partials.sum ∧
    (Main.Threads gen iterations seed nrOfWorkers).partials.length =
      nrOfWorkers ∧
    (∀ q ∈ (Main.Threads gen iterations seed nrOfWorkers).partials,
      q ≤ iterations / nrOfWorkers) ∧
    (Main.Threads gen iterations seed nrOfWorkers).inCount =
      (Main.Threads gen iterations seed nrOfWorkers).partials.sum := by
  refine ⟨?_, ?_, rfl, ?_, ?_, rfl⟩
  · simp [Main.AsyncNoRef, Main.AsyncNoRefPartials]
  · have hp2 : p ∈ Main.AsyncNoRefPartials gen iterations seed nrOfWorkers := hp
    rcases List.mem_map.mp hp2 with ⟨w, _, rfl⟩
    exact countInside_le _ _
  · simp [Main.Threads, Main.ThreadsPartials]
  · intro q hq
    have hq2 : q ∈ Main.ThreadsPartials gen iterations seed nrOfWorkers := hq
    rcases List.mem_map.mp hq2 with ⟨w, _, rfl⟩
    exact countInside_le _ _

/-- C7 witness at a concrete input. -/
theorem claim7_witness :
    (Main.AsyncNoRef genOrigin 10 0 4).partials.length = 4 ∧
    2 ≤ 10 / 4 ∧
    (Main.AsyncNoRef genOrigin 10 0 4).inCount =
      (Main.AsyncNoRef genOrigin 10 0 4).partials.sum ∧
    (Main.Threads genOrigin 10 0 4).partials.length = 4 ∧
    (∀ q ∈ (Main.Threads genOrigin 10 0 4).partials, q ≤ 10 / 4) ∧
    (Main.Threads genOrigin 10 0 4).inCount =
      (Main.Threads genOrigin 10 0 4).partials.sum :=
  claim7_partial_result_invariant genOrigin 10 0 4 2 (by
    show (2 : ℕ) ∈ Main.AsyncNoRefPartials genOrigin 10 0 4
    rw [asyncNoRefPartials_genOrigin]
    decide)

/-- C8: for a fixed (totalIterations, workerCount, seed) tuple, the estimate
of AsyncNoRef and of Threads is independent of the order in which the
scheduler completes the workers — any two invocations (any two completion
schedules) return the identical Estimate, namely the one of the canonical
future-index order. -/
theorem claim8_determinism (gen : SampleStream) (iterations seed nrOfWorkers : ℕ)
    (sched1 sched2 : List ℕ)
    (h1 : sched1.Perm (List.range nrOfWorkers))
    (h2 : sched2.Perm (List.range nrOfWorkers)) :
    Main.AsyncNoRefSched gen iterations seed nrOfWorkers sched1 =
      Main.AsyncNoRefSched gen iterations seed nrOfWorkers sched2 ∧
    Main.ThreadsSched gen iterations seed nrOfWorkers sched1 =
      Main.ThreadsSched gen iterations seed nrOfWorkers sched2 ∧
    Main.AsyncNoRefSched gen iterations seed nrOfWorkers sched1 =
      (Main.AsyncNoRef gen iterations seed nrOfWorkers).estimate ∧
    Main.ThreadsSched gen iterations seed nrOfWorkers sched1 =
      (Main.Threads gen iterations seed nrOfWorkers).estimate := by
  have key : ∀ (f : ℕ → ℕ) (s : List ℕ), s.Perm (List.range nrOfWorkers) →
      (s.map f).sum = ((List.range nrOfWorkers).map f).sum :=
    fun f s hs => (hs.map f).sum_eq
  refine ⟨?_, ?_, ?_, ?_⟩ <;>
    simp [Main.AsyncNoRefSched, Main.ThreadsSched, Main.AsyncNoRef,
      Main.Threads, Main.AsyncNoRefPartials, Main.ThreadsPartials,
      key _ _ h1, key _ _ h2]

/-- C8 witness at a concrete input: two different completion orders of two
workers. -/
theorem claim8_witness :
    Main.AsyncNoRefSched genAlt 10 3 2 [1, 0] =
      Main.AsyncNoRefSched genAlt 10 3 2 [0, 1] ∧
    Main.ThreadsSched genAlt 10 3 2 [1, 0] =
      Main.ThreadsSched genAlt 10 3 2 [0, 1] ∧
    Main.AsyncNoRefSched genAlt 10 3 2 [1, 0] =
      (Main.AsyncNoRef genAlt 10 3 2).estimate ∧
    Main.ThreadsSched genAlt 10 3 2 [1, 0] =
      (Main.Threads genAlt 10 3 2).estimate :=
  claim8_determinism genAlt 10 3 2 [1, 0] [0, 1] (by decide) (by decide)

/-- C9 counterexample: in main.cpp's Threads with one worker, the worker's
result is read through future.get while no thread is ever joined — the
retrieval loop detaches instead (line 180; the join on line 179 is commented
out).  So the engine does not join every thread before reading results. -/
theorem claim9_counterexample :
    ThreadEvent.getResult 0 ∈ Main.ThreadsTrace 1 ∧
    ThreadEvent.join 0 ∉ Main.ThreadsTrace 1 ∧
    ThreadEvent.detach 0 ∈ Main.ThreadsTrace 1 := by
  refine ⟨?_, ?_, ?_⟩ <;> decide

/-- C9 amended: main.cpp's Threads spawns exactly one thread per chunk and
reads each worker's single promise/future exactly once, but its retrieval
discipline is detach-then-blocking-get: it joins no thread, and each
future.get is immediately preceded by the detach of its thread.  The
workingImplementation.h variant instead joins each thread immediately before
reading that thread's result. -/
theorem claim9_amended (nrOfWorkers w : ℕ) (hw : w < nrOfWorkers) :
    (Main.ThreadsTrace nrOfWorkers).count (ThreadEvent.spawn w) = 1 ∧
    (Main.ThreadsTrace nrOfWorkers).count (ThreadEvent.getResult w) = 1 ∧
    (Main.ThreadsTrace nrOfWorkers).count (ThreadEvent.join w) = 0 ∧
    (∃ pre post, Main.ThreadsTrace nrOfWorkers =
      pre ++ [ThreadEvent.detach w, ThreadEvent.getResult w] ++ post) ∧
    (∃ pre post, Working.ThreadsTrace nrOfWorkers =
      pre ++ [ThreadEvent.join w, ThreadEvent.getResult w] ++ post) := by
  have hmem : ∀ g : ℕ → List ThreadEvent,
      g w ∈ (List.range nrOfWorkers).map g :=
    fun g => List.mem_map.mpr ⟨w, List.mem_range.mpr hw, rfl⟩
  refine ⟨?_, ?_, ?_, ?_, ?_⟩
  · rw [Main.ThreadsTrace, List.count_append]
    have h1 : ((List.range nrOfWorkers).map ThreadEvent.spawn).count
        (ThreadEvent.spawn w) = 1 := by
      rw [List.count_map_of_injective _ _ spawn_injective]
      exact List.count_eq_one_of_mem (List.nodup_range _)
        (List.mem_range.mpr hw)
    have h2 : (((List.range nrOfWorkers).map fun v =>
        [ThreadEvent.detach v, ThreadEvent.getResult v]).flatten).count
        (ThreadEvent.spawn w) = 0 := by
      rw [count_flatten_range]
      have hb : ((List.range nrOfWorkers).map fun v =>
          [ThreadEvent.detach v, ThreadEvent.getResult v].count
            (ThreadEvent.spawn w)) =
          (List.range nrOfWorkers).map fun _ => 0 := by
        simp [List.count_cons]
      rw [hb]
      simp
    rw [h1, h2]
  · rw [Main.ThreadsTrace, List.count_append]
    have h1 : ((List.range nrOfWorkers).map ThreadEvent.spawn).count
        (ThreadEvent.getResult w) = 0 := by
      rw [List.count_eq_zero]
      simp
    have h2 : (((List.range nrOfWorkers).map fun v =>
        [ThreadEvent.detach v, ThreadEvent.getResult v]).flatten).count
        (ThreadEvent.getResult w) = 1 := by
      rw [count_flatten_range]
      have hb : ((List.range nrOfWorkers).map fun v =>
          [ThreadEvent.detach v, ThreadEvent.getResult v].count
            (ThreadEvent.getResult w)) =
          (List.range nrOfWorkers).map fun v => if v = w then 1 else 0 := by
        refine List.map_congr_left ?_
        intro v _
        by_cases hv : v = w
        · subst hv
          simp [List.count_cons]
        · simp [List.count_cons, hv]
      rw [hb, sum_indicator_range]
      simp [hw]
    rw [h1, h2]
  · rw [Main.ThreadsTrace, List.count_append]
    have h1 : ((List.range nrOfWorkers).map ThreadEvent.spawn).count
        (ThreadEvent.join w) = 0 := by
      rw [List.count_eq_zero]
      simp
    have h2 : (((List.range nrOfWorkers).map fun v =>
        [ThreadEvent.detach v, ThreadEvent.getResult v]).flatten).count
        (ThreadEvent.join w) = 0 := by
      rw [count_flatten_range]
      have hb : ((List.range nrOfWorkers).map fun v =>
          [ThreadEvent.detach v, ThreadEvent.getResult v].count
            (ThreadEvent.join w)) =
          (List.range nrOfWorkers).map fun _ => 0 := by
        simp [List.count_cons]
      rw [hb]
      simp
    rw [h1, h2]
  · rcases exists_decomp_of_mem_flatten
      (hmem fun v => [ThreadEvent.detach v, ThreadEvent.getResult v]) with
      ⟨pre, post, hpp⟩
    exact ⟨((List.range nrOfWorkers).map ThreadEvent.spawn) ++ pre, post, by
      rw [Main.ThreadsTrace, hpp]
      simp⟩
  · rcases exists_decomp_of_mem_flatten
      (hmem fun v => [ThreadEvent.join v, ThreadEvent.getResult v]) with
      ⟨pre, post, hpp⟩
    exact ⟨((List.range nrOfWorkers).map ThreadEvent.spawn) ++ pre, post, by
      rw [Working.ThreadsTrace, hpp]
      simp⟩

/-- C9 amended, witness at a concrete input. -/
theorem claim9_amended_witness :
    (Main.ThreadsTrace 2).count (ThreadEvent.spawn 1) = 1 ∧
    (Main.ThreadsTrace 2).count (ThreadEvent.getResult 1) = 1 ∧
    (Main.ThreadsTrace 2).count (ThreadEvent.join 1) = 0 ∧
    (∃ pre post, Main.ThreadsTrace 2 =
      pre ++ [ThreadEvent.detach 1, ThreadEvent.getResult 1] ++ post) ∧
    (∃ pre post, Working.ThreadsTrace 2 =
      pre ++ [ThreadEvent.join 1, ThreadEvent.getResult 1] ++ post) :=
  claim9_amended 2 1 (by decide)

/-- C10: with more workers than iterations each worker's chunk is
floor(T/W) = 0 draws, every partial result is 0, AsyncNoRef and Threads
execute 0 sampling iterations in total and return exactly 0, while
SingleThread over the same totalIterations still executes all of them. -/
theorem claim10_more_workers_than_iterations (gen : SampleStream)
    (iterations seed nrOfWorkers : ℕ)
    (hT : 0 < iterations) (hTW : iterations < nrOfWorkers) :
    (Main.AsyncNoRef gen iterations seed nrOfWorkers).partials =
      List.replicate nrOfWorkers 0 ∧
    (Main.Threads gen iterations seed nrOfWorkers).partials =
      List.replicate nrOfWorkers 0 ∧
    (Main.AsyncNoRef gen iterations seed nrOfWorkers).iterationsExecuted = 0 ∧
    (Main.AsyncNoRef gen iterations seed nrOfWorkers).estimate = some 0 ∧
    (Main.Threads gen iterations seed nrOfWorkers).estimate = some 0 ∧
    (Main.SingleThread gen iterations seed).iterationsExecuted = iterations := by
  have hdiv : iterations / nrOfWorkers = 0 := Nat.div_eq_of_lt hTW
  have hzero : ∀ s : ℕ, countInside (gen s) (iterations / nrOfWorkers) = 0 := by
    intro s
    rw [hdiv]
    rfl
  have hparts : Main.AsyncNoRefPartials gen iterations seed nrOfWorkers =
      List.replicate nrOfWorkers 0 := by
    unfold Main.AsyncNoRefPartials Main.approximatePi
    exact map_range_const (fun v => hzero _) nrOfWorkers
  have hparts2 : Main.ThreadsPartials gen iterations seed nrOfWorkers =
      List.replicate nrOfWorkers 0 := by
    unfold Main.ThreadsPartials
    exact map_range_const (fun v => hzero _) nrOfWorkers
  refine ⟨hparts, hparts2, ?_, ?_, ?_, rfl⟩
  · simp [Main.AsyncNoRef, hdiv]
  · simp [Main.AsyncNoRef, hparts, toEstimate, hT.ne', List.sum_replicate]
  · simp [Main.Threads, hparts2, toEstimate, hT.ne', List.sum_replicate]

/-- C10 witness at a concrete input. -/
theorem claim10_witness :
    (Main.AsyncNoRef genAlt 3 0 5).partials = List.replicate 5 0 ∧
    (Main.Threads genAlt 3 0 5).partials = List.replicate 5 0 ∧
    (Main.AsyncNoRef genAlt 3 0 5).iterationsExecuted = 0 ∧
    (Main.AsyncNoRef genAlt 3 0 5).estimate = some 0 ∧
    (Main.Threads genAlt 3 0 5).estimate = some 0 ∧
    (Main.SingleThread genAlt 3 0).iterationsExecuted = 3 :=
  claim10_more_workers_than_iterations genAlt 3 0 5 (by decide) (by decide)

end PiApprox
